import Mathlib

/-!
Verification of the core algorithms of the vidgenai video-generation pipeline.

Numbers that the Python source handles as floats are modelled as rationals
(exact arithmetic); machine strings are Lean strings.  Fallible collaborator
calls are modelled as Except values.
-/

namespace Vidgenai

/-! ### Compositor per-slide durations
  (src/backend/services/video/composer.py, compose_video step 6) -/

/-- Step 6 of compose_video:
      per = total_duration / len(processed_paths)
      durations = [per] * len(processed_paths)
      durations[-1] = total_duration - sum(durations[:-1])
  For an empty list the Python code raises (ZeroDivisionError / IndexError);
  the claims only concern non-empty lists. -/
def computeDurations (processedPaths : List String) (totalDuration : ℚ) : List ℚ :=
  let per := totalDuration / (processedPaths.length : ℚ)
  let durations := List.replicate processedPaths.length per
  durations.dropLast ++ [totalDuration - durations.dropLast.sum]

theorem computeDurations_sum (processedPaths : List String) (totalDuration : ℚ) :
    (computeDurations processedPaths totalDuration).sum = totalDuration := by
  simp [computeDurations]

theorem dropLast_replicate_eq (n : ℕ) (a : ℚ) :
    (List.replicate n a).dropLast = List.replicate (n - 1) a := by
  rw [List.dropLast_eq_take, List.take_replicate, List.length_replicate]
  congr 1
  omega

/-! ### SRT timestamp formatting
  (src/backend/services/subtitles/subtitle_generator.py, SubtitleFormatter.format_timestamp) -/

/-- Python int() truncates toward zero. -/
def pyInt (q : ℚ) : ℤ := if q < 0 then ⌈q⌉ else ⌊q⌋

/-- Python float floor division a // b. -/
def pyFloorDiv (a b : ℚ) : ℚ := (⌊a / b⌋ : ℚ)

/-- Python float modulo a % b (for b > 0). -/
def pyMod (a b : ℚ) : ℚ := a - b * (⌊a / b⌋ : ℚ)

/-- The four numeric fields computed by SubtitleFormatter.format_timestamp:
      hours = int(seconds // 3600)
      minutes = int((seconds % 3600) // 60)
      seconds_int = int(seconds)
      milliseconds = int((seconds - seconds_int) * 1000) -/
structure TimestampFields where
  hours : ℤ
  minutes : ℤ
  secondsInt : ℤ
  milliseconds : ℤ

def timestampFields (seconds : ℚ) : TimestampFields :=
  { hours := pyInt (pyFloorDiv seconds 3600)
    minutes := pyInt (pyFloorDiv (pyMod seconds 3600) 60)
    secondsInt := pyInt seconds
    milliseconds := pyInt ((seconds - ((pyInt seconds : ℤ) : ℚ)) * 1000) }

/-- f-string zero padding {n:0wd}. -/
def zeroPad (w : ℕ) (n : ℤ) : String :=
  let s := toString n
  String.mk (List.replicate (w - s.length) (Char.ofNat 48)) ++ s

/-- The rendered SRT timestamp string HH:MM:SS,mmm. -/
def formatTimestamp (seconds : ℚ) : String :=
  let f := timestampFields seconds
  zeroPad 2 f.hours ++ ":" ++ zeroPad 2 f.minutes ++ ":" ++
    zeroPad 2 f.secondsInt ++ "," ++ zeroPad 3 f.milliseconds

theorem pyInt_of_nonneg {q : ℚ} (h : 0 ≤ q) : pyInt q = ⌊q⌋ := by
  simp [pyInt, not_lt.mpr h]

/-! ### Aspect-ratio ranking
  (src/backend/services/media/image_fetcher.py, sort_images_by_aspect_ratio_match) -/

/-- One entry of the image-candidate dicts built by fetch_images. -/
structure ImageCandidate where
  url : String
  width : ℕ
  height : ℕ
  aspect_ratio : String
  is_vertical : Bool
  search_term : String
deriving DecidableEq

/-- aspect_ratio_score(img) from the source: an orientation bonus of 10
  minus the absolute difference between height/width and the target value. -/
def aspectRatioScore (targetValue : ℚ) (img : ImageCandidate) : ℚ :=
  let baseScore : ℚ :=
    if 1 < targetValue ∧ img.is_vertical = true then 10
    else if targetValue < 1 ∧ img.is_vertical = false then 10
    else 0
  let imgRatio := (img.height : ℚ) / (img.width : ℚ)
  baseScore - |imgRatio - targetValue|

/-- Stable descending insertion: a goes before the first element whose score
  is not greater, which reproduces the order of Python sorted(..., reverse=True). -/
def insertDescBy (score : α → ℚ) (a : α) : List α → List α
  | [] => [a]
  | b :: r => if score a < score b then b :: insertDescBy score a r else a :: b :: r

/-- Stable sort by descending score, as Python sorted(images, key=..., reverse=True). -/
def sortDescBy (score : α → ℚ) : List α → List α
  | [] => []
  | a :: l => insertDescBy score a (sortDescBy score l)

/-- sort_images_by_aspect_ratio_match; the target ratio string W:H from the
  source arrives already split into its two integer components. -/
def sort_images_by_aspect_ratio_match (images : List ImageCandidate)
    (targetWidth targetHeight : ℕ) : List ImageCandidate :=
  let targetValue := (targetHeight : ℚ) / (targetWidth : ℚ)
  sortDescBy (aspectRatioScore targetValue) images

theorem insertDescBy_perm (score : α → ℚ) (a : α) (l : List α) :
    List.Perm (insertDescBy score a l) (a :: l) := by
  induction l with
  | nil => simp [insertDescBy]
  | cons b r ih =>
    by_cases h : score a < score b
    · simp only [insertDescBy, if_pos h]
      exact (ih.cons b).trans (List.Perm.swap a b r)
    · simp [insertDescBy, if_neg h]

theorem sortDescBy_perm (score : α → ℚ) (l : List α) :
    List.Perm (sortDescBy score l) l := by
  induction l with
  | nil => simp [sortDescBy]
  | cons a l ih =>
    exact (insertDescBy_perm score a (sortDescBy score l)).trans (ih.cons a)

theorem insertDescBy_pairwise (score : α → ℚ) (a : α) (l : List α)
    (hl : l.Pairwise (fun x y => score y ≤ score x)) :
    (insertDescBy score a l).Pairwise (fun x y => score y ≤ score x) := by
  induction l with
  | nil => simp [insertDescBy]
  | cons b r ih =>
    rcases List.pairwise_cons.mp hl with ⟨hb, hr⟩
    by_cases h : score a < score b
    · simp only [insertDescBy, if_pos h]
      refine List.pairwise_cons.mpr ⟨?_, ih hr⟩
      intro x hx
      rcases List.mem_cons.mp ((insertDescBy_perm score a r).mem_iff.mp hx) with hxa | hxr
      · subst hxa; exact le_of_lt h
      · exact hb x hxr
    · simp only [insertDescBy, if_neg h]
      refine List.pairwise_cons.mpr ⟨?_, hl⟩
      intro x hx
      rcases List.mem_cons.mp hx with hxb | hxr
      · subst hxb; exact not_lt.mp h
      · exact le_trans (hb x hxr) (not_lt.mp h)

theorem sortDescBy_pairwise (score : α → ℚ) (l : List α) :
    (sortDescBy score l).Pairwise (fun x y => score y ≤ score x) := by
  induction l with
  | nil => simp [sortDescBy]
  | cons a l ih => exact insertDescBy_pairwise score a (sortDescBy score l) ih

theorem floor_div_intCast (t : ℚ) (n : ℤ) (hn : 0 < n) :
    ⌊t / (n : ℚ)⌋ = ⌊t⌋ / n := by
  have hnq : (0 : ℚ) < (n : ℚ) := by exact_mod_cast hn
  rw [Int.floor_eq_iff]
  constructor
  · rw [le_div_iff₀ hnq]
    have h3 := Int.ediv_add_emod ⌊t⌋ n
    have h4 : 0 ≤ ⌊t⌋ % n := Int.emod_nonneg ⌊t⌋ (ne_of_gt hn)
    have key : (n : ℤ) * (⌊t⌋ / n) ≤ ⌊t⌋ := by linarith
    calc ((⌊t⌋ / n : ℤ) : ℚ) * (n : ℚ) = (((n : ℤ) * (⌊t⌋ / n) : ℤ) : ℚ) := by
          push_cast; ring
      _ ≤ ((⌊t⌋ : ℤ) : ℚ) := by exact_mod_cast key
      _ ≤ t := Int.floor_le t
  · rw [div_lt_iff₀ hnq]
    have h2 : t < (⌊t⌋ : ℚ) + 1 := Int.lt_floor_add_one t
    have h3 := Int.ediv_add_emod ⌊t⌋ n
    have h4 : ⌊t⌋ % n < n := Int.emod_lt_of_pos ⌊t⌋ hn
    have hmul : (⌊t⌋ / n + 1) * n = n * (⌊t⌋ / n) + n := by ring
    have key : ⌊t⌋ + 1 ≤ (⌊t⌋ / n + 1) * n := by
      rw [hmul]; linarith
    have : ((⌊t⌋ : ℤ) : ℚ) + 1 ≤ (((⌊t⌋ / n + 1) * n : ℤ) : ℚ) := by exact_mod_cast key
    push_cast at this
    linarith

/-- C10: for every non-negative number of seconds t, format_timestamp renders
  the minutes field as (floor t mod 3600) div 60 but the seconds field as
  floor t without reducing it modulo 60, so for every t of 60 seconds or
  more the rendered seconds field is 60 or greater. -/
theorem claim_C10_format_timestamp (t : ℚ) (h : 0 ≤ t) :
    (timestampFields t).minutes = (⌊t⌋ % 3600) / 60 ∧
    (timestampFields t).secondsInt = ⌊t⌋ ∧
    (60 ≤ t → 60 ≤ (timestampFields t).secondsInt) := by
  have hsec : (timestampFields t).secondsInt = ⌊t⌋ := by
    simp [timestampFields, pyInt_of_nonneg h]
  refine ⟨?_, hsec, ?_⟩
  · have hq : ⌊t / (3600 : ℚ)⌋ = ⌊t⌋ / 3600 := by
      have := floor_div_intCast t 3600 (by norm_num)
      simpa using this
    have hfl : (⌊t / (3600 : ℚ)⌋ : ℚ) ≤ t / 3600 := Int.floor_le _
    have hm0 : 0 ≤ pyMod t 3600 := by
      have : (⌊t / (3600 : ℚ)⌋ : ℚ) * 3600 ≤ t := by
        rw [← le_div_iff₀ (by norm_num : (0:ℚ) < 3600)]
        exact hfl
      simp only [pyMod]
      linarith
    have hminner : ⌊pyMod t 3600⌋ = ⌊t⌋ - 3600 * (⌊t⌋ / 3600) := by
      have : pyMod t 3600 = t - (((3600 * ⌊t / (3600 : ℚ)⌋ : ℤ)) : ℚ) := by
        simp only [pyMod]; push_cast; ring
      rw [this, Int.floor_sub_int, hq]
    have hdiv60 : ⌊pyMod t 3600 / (60 : ℚ)⌋ = ⌊pyMod t 3600⌋ / 60 := by
      have := floor_div_intCast (pyMod t 3600) 60 (by norm_num)
      simpa using this
    have hnn : (0 : ℚ) ≤ ((⌊pyMod t 3600 / (60 : ℚ)⌋ : ℤ) : ℚ) := by
      have : (0 : ℤ) ≤ ⌊pyMod t 3600 / (60 : ℚ)⌋ :=
        Int.floor_nonneg.mpr (by positivity)
      exact_mod_cast this
    have : (timestampFields t).minutes = ⌊pyMod t 3600 / (60 : ℚ)⌋ := by
      simp [timestampFields, pyFloorDiv, pyInt_of_nonneg hnn]
    rw [this, hdiv60, hminner]
    omega
  · intro h60
    rw [hsec]
    exact Int.le_floor.mpr (by exact_mod_cast h60)

theorem claim_C10_format_timestamp_witness :
    0 ≤ (123 / 2 : ℚ) ∧
    ((timestampFields (123 / 2)).minutes = (⌊(123 / 2 : ℚ)⌋ % 3600) / 60 ∧
     (timestampFields (123 / 2)).secondsInt = ⌊(123 / 2 : ℚ)⌋ ∧
     (60 ≤ (123 / 2 : ℚ) → 60 ≤ (timestampFields (123 / 2)).secondsInt)) :=
  ⟨by norm_num, claim_C10_format_timestamp (123 / 2) (by norm_num)⟩

/-- C2 counterexample: with a single processed image and a total audio
  duration of 0 the computed slide duration list is [0], whose only entry is
  zero, refuting the claim that no slide duration is zero or negative for
  every total audio duration. -/
theorem claim_C2_counterexample :
    (["p"] : List String) ≠ [] ∧
    computeDurations ["p"] 0 = [0] ∧
    ¬ (∀ d ∈ computeDurations ["p"] 0, 0 < d) := by
  have h : computeDurations ["p"] 0 = [0] := by
    simp [computeDurations]
  refine ⟨by simp, h, ?_⟩
  rw [h]
  push_neg
  exact ⟨0, by simp, le_refl 0⟩

/-- C2 (amended): for every non-empty list of processed images and every
  positive total audio duration, the per-slide durations sum exactly to the
  total audio duration and no slide duration is zero or negative. -/
theorem claim_C2_durations (paths : List String) (total : ℚ)
    (hne : paths ≠ []) (hpos : 0 < total) :
    (computeDurations paths total).sum = total ∧
    ∀ d ∈ computeDurations paths total, 0 < d := by
  refine ⟨computeDurations_sum paths total, ?_⟩
  intro d hd
  have hn : 0 < paths.length := List.length_pos.mpr hne
  have hnq : (0 : ℚ) < (paths.length : ℚ) := by exact_mod_cast hn
  simp only [computeDurations, dropLast_replicate_eq] at hd
  rcases List.mem_append.mp hd with hmem | hmem
  · rw [List.eq_of_mem_replicate hmem]
    exact div_pos hpos hnq
  · have hd2 : d = total - ((paths.length - 1 : ℕ) : ℚ) * (total / (paths.length : ℚ)) := by
      simpa [List.sum_replicate, nsmul_eq_mul] using List.mem_singleton.mp hmem
    have hcast : ((paths.length - 1 : ℕ) : ℚ) = (paths.length : ℚ) - 1 := by
      have h1 : (1 : ℕ) ≤ paths.length := hn
      rw [Nat.cast_sub h1, Nat.cast_one]
    have hval : d = total / (paths.length : ℚ) := by
      rw [hd2, hcast]
      field_simp
      ring
    rw [hval]
    exact div_pos hpos hnq

theorem claim_C2_durations_witness :
    (["a", "b"] : List String) ≠ [] ∧ (0 : ℚ) < 3 ∧
    ((computeDurations ["a", "b"] 3).sum = 3 ∧
     ∀ d ∈ computeDurations ["a", "b"] 3, 0 < d) :=
  ⟨by simp, by norm_num, claim_C2_durations ["a", "b"] 3 (by simp) (by norm_num)⟩

/-- C8: for every list of image candidates and every target ratio W:H with
  W positive, sort_images_by_aspect_ratio_match returns the candidates
  sorted by descending aspect-ratio score (orientation bonus minus the
  absolute height/width ratio difference), as a permutation of the input. -/
theorem claim_C8_rank_by_aspect_fit (images : List ImageCandidate)
    (tw th : ℕ) (htw : 0 < tw) :
    List.Perm (sort_images_by_aspect_ratio_match images tw th) images ∧
    (sort_images_by_aspect_ratio_match images tw th).Pairwise
      (fun a b => aspectRatioScore ((th : ℚ) / (tw : ℚ)) b ≤
        aspectRatioScore ((th : ℚ) / (tw : ℚ)) a) := by
  have _h : 0 < tw := htw
  exact ⟨sortDescBy_perm _ images, sortDescBy_pairwise _ images⟩

theorem claim_C8_rank_by_aspect_fit_witness :
    0 < 9 ∧
    (List.Perm
      (sort_images_by_aspect_ratio_match
        [⟨"u1", 400, 800, "1:2", true, "a"⟩, ⟨"u2", 800, 400, "2:1", false, "b"⟩] 9 16)
      [⟨"u1", 400, 800, "1:2", true, "a"⟩, ⟨"u2", 800, 400, "2:1", false, "b"⟩] ∧
    (sort_images_by_aspect_ratio_match
        [⟨"u1", 400, 800, "1:2", true, "a"⟩, ⟨"u2", 800, 400, "2:1", false, "b"⟩] 9 16).Pairwise
      (fun a b => aspectRatioScore ((16 : ℚ) / (9 : ℚ)) b ≤
        aspectRatioScore ((16 : ℚ) / (9 : ℚ)) a)) :=
  ⟨by norm_num,
   claim_C8_rank_by_aspect_fit
     [⟨"u1", 400, 800, "1:2", true, "a"⟩, ⟨"u2", 800, 400, "2:1", false, "b"⟩]
     9 16 (by norm_num)⟩

/-! ### Subtitle generation fallback
  (src/backend/services/subtitles/subtitle_generator.py) -/

/-- One transcription segment: start time, end time, text. -/
structure SubtitleSegment where
  start : ℚ
  endTime : ℚ
  text : String

def isSentenceEnd (c : Char) : Bool := c == '.' || c == '!' || c == '?'

theorem length_dropWhile_le (p : Char → Bool) (l : List Char) :
    (l.dropWhile p).length ≤ l.length :=
  (List.dropWhile_suffix p).sublist.length_le

/-- Worker for re.split of SimpleSubtitleGenerator.generate: a maximal run of
  spaces whose immediately preceding character is one of . ! ? separates two
  sentences; cur holds the current sentence reversed.  The fuel argument only
  serves Lean termination; each step consumes at least one character, so fuel
  equal to the length of the remaining input never runs out. -/
def sentSplitGo (fuel : ℕ) (cur : List Char) (cs : List Char) : List (List Char) :=
  match fuel, cs with
  | _, [] => [cur.reverse]
  | 0, _ :: _ => [cur.reverse ++ cs]
  | n + 1, c :: rest =>
    if c == ' ' && (match cur with | p :: _ => isSentenceEnd p | [] => false) then
      cur.reverse :: sentSplitGo n [] (rest.dropWhile (fun x => x == ' '))
    else
      sentSplitGo n (c :: cur) rest

theorem sentSplitGo_nil (fuel : ℕ) (cur : List Char) :
    sentSplitGo fuel cur [] = [cur.reverse] := by
  cases fuel <;> rfl

theorem sentSplitGo_zero_cons (cur : List Char) (x : Char) (rest : List Char) :
    sentSplitGo 0 cur (x :: rest) = [cur.reverse ++ x :: rest] := rfl

theorem sentSplitGo_succ_cons (m : ℕ) (cur : List Char) (x : Char) (rest : List Char) :
    sentSplitGo (m + 1) cur (x :: rest) =
    (if x == ' ' && (match cur with | p :: _ => isSentenceEnd p | [] => false) then
      cur.reverse :: sentSplitGo m [] (rest.dropWhile (fun y => y == ' '))
    else
      sentSplitGo m (x :: cur) rest) := rfl

/-- The pieces produced by re.split of the script. -/
def splitSentencesRaw (script : String) : List String :=
  (sentSplitGo script.toList.length [] script.toList).map (fun cs => String.mk cs)

/-- Python str.isspace for a single character: true exactly on the
  codepoints 0x09-0x0D, 0x1C-0x1F, 0x20, 0x85, 0xA0, 0x1680,
  0x2000-0x200A, 0x2028, 0x2029, 0x202F, 0x205F and 0x3000; this is the
  set of characters that str.strip() removes. -/
def pyIsSpace (c : Char) : Bool :=
  decide ((9 ≤ c.toNat ∧ c.toNat ≤ 13) ∨ (28 ≤ c.toNat ∧ c.toNat ≤ 31) ∨
    c.toNat = 32 ∨ c.toNat = 133 ∨ c.toNat = 160 ∨ c.toNat = 5760 ∨
    (8192 ≤ c.toNat ∧ c.toNat ≤ 8202) ∨ c.toNat = 8232 ∨ c.toNat = 8233 ∨
    c.toNat = 8239 ∨ c.toNat = 8287 ∨ c.toNat = 12288)

/-- Python str.strip(): drop whitespace from both ends. -/
def pyStrip (s : String) : String :=
  String.mk (((s.toList.dropWhile pyIsSpace).reverse.dropWhile
    pyIsSpace).reverse)

/-- sentences = [s.strip() for s in sentences if s.strip()] -/
def splitSentences (script : String) : List String :=
  ((splitSentencesRaw script).map pyStrip).filter (fun s => s ≠ "")

/-- The segment-building loop of SimpleSubtitleGenerator.generate:
  duration = max(1.5, len(sentence) / chars_per_second), chars_per_second = 15,
  with start times accumulated sequentially. -/
def buildSegments (t : ℚ) : List String → List SubtitleSegment
  | [] => []
  | s :: rest =>
    let duration := max (3 / 2 : ℚ) ((s.length : ℚ) / 15)
    ⟨t, t + duration, s⟩ :: buildSegments (t + duration) rest

/-- SimpleSubtitleGenerator.generate (the estimated-timing fallback). -/
def simpleSubtitleGenerate (script : String) : List SubtitleSegment :=
  buildSegments 0 (splitSentences script)

/-- SubtitleGenerator.generate: try each transcription provider in order,
  return the first successful segment list, else fall back to
  SimpleSubtitleGenerator.generate. -/
def subtitleGenerate (providerResults : List (Except String (List SubtitleSegment)))
    (script : String) : List SubtitleSegment :=
  match providerResults with
  | [] => simpleSubtitleGenerate script
  | Except.ok segs :: _ => segs
  | Except.error _ :: rest => subtitleGenerate rest script

theorem mem_dropWhile_of_mem (p : Char → Bool) (c : Char) (hc : p c = false) :
    ∀ {l : List Char}, c ∈ l → c ∈ l.dropWhile p := by
  intro l hl
  induction l with
  | nil => cases hl
  | cons x rest ih =>
    by_cases hx : p x = true
    · rw [List.dropWhile_cons_of_pos hx]
      rcases List.mem_cons.mp hl with rfl | hmem
      · rw [hc] at hx; cases hx
      · exact ih hmem
    · rw [List.dropWhile_cons_of_neg hx]
      exact hl

theorem sentSplitGo_covers (c : Char) (hc : c ≠ ' ') :
    ∀ (fuel : ℕ) (cur cs : List Char), (c ∈ cur ∨ c ∈ cs) →
      ∃ p ∈ sentSplitGo fuel cur cs, c ∈ p := by
  intro fuel
  induction fuel with
  | zero =>
    intro cur cs hmem
    cases cs with
    | nil =>
      rcases hmem with hcur | hcs
      · exact ⟨cur.reverse, by simp [sentSplitGo_nil], List.mem_reverse.mpr hcur⟩
      · cases hcs
    | cons x rest =>
      refine ⟨cur.reverse ++ x :: rest, by simp [sentSplitGo_zero_cons], ?_⟩
      rcases hmem with hcur | hcs
      · exact List.mem_append.mpr (Or.inl (List.mem_reverse.mpr hcur))
      · exact List.mem_append.mpr (Or.inr hcs)
  | succ m ih =>
    intro cur cs hmem
    cases cs with
    | nil =>
      rcases hmem with hcur | hcs
      · exact ⟨cur.reverse, by simp [sentSplitGo_nil], List.mem_reverse.mpr hcur⟩
      · cases hcs
    | cons x rest =>
      rw [sentSplitGo_succ_cons]
      cases cur with
      | nil =>
        simp only [Bool.and_false, Bool.false_eq_true, if_false]
        have hmem2 : c ∈ x :: ([] : List Char) ∨ c ∈ rest := by
          rcases hmem with hcur | hcs
          · cases hcur
          · rcases List.mem_cons.mp hcs with rfl | hmem3
            · exact Or.inl (List.mem_cons_self _ _)
            · exact Or.inr hmem3
        exact ih [x] rest hmem2
      | cons p0 curtail =>
        by_cases hsplit : (x == ' ' && isSentenceEnd p0) = true
        · rw [if_pos hsplit]
          have hx : x = ' ' := by
            have := (Bool.and_eq_true _ _).mp hsplit
            exact eq_of_beq this.1
          rcases hmem with hcur | hcs
          · exact ⟨(p0 :: curtail).reverse, List.mem_cons_self _ _,
              List.mem_reverse.mpr hcur⟩
          · have hcrest : c ∈ rest := by
              rcases List.mem_cons.mp hcs with heq | hmem2
              · exact absurd (heq.trans hx) hc
              · exact hmem2
            have hcne : (c == ' ') = false := by simpa using hc
            have hdrop : c ∈ rest.dropWhile (fun y => y == ' ') :=
              mem_dropWhile_of_mem (fun y => y == ' ') c hcne hcrest
            rcases ih [] _ (Or.inr hdrop) with ⟨piece, hp, hcp⟩
            exact ⟨piece, List.mem_cons_of_mem _ hp, hcp⟩
        · rw [if_neg hsplit]
          have hmem2 : c ∈ x :: p0 :: curtail ∨ c ∈ rest := by
            rcases hmem with hcur | hcs
            · exact Or.inl (List.mem_cons_of_mem _ hcur)
            · rcases List.mem_cons.mp hcs with rfl | hmem3
              · exact Or.inl (List.mem_cons_self _ _)
              · exact Or.inr hmem3
          exact ih (x :: p0 :: curtail) rest hmem2

theorem pyStrip_ne_empty {s : String} {c : Char} (hc : pyIsSpace c = false)
    (hmem : c ∈ s.toList) : pyStrip s ≠ "" := by
  intro hcontra
  have h1 : c ∈ s.toList.dropWhile pyIsSpace :=
    mem_dropWhile_of_mem pyIsSpace c hc hmem
  have h2 : c ∈ (s.toList.dropWhile pyIsSpace).reverse.dropWhile
      pyIsSpace :=
    mem_dropWhile_of_mem pyIsSpace c hc (List.mem_reverse.mpr h1)
  have h3 : c ∈ ((s.toList.dropWhile pyIsSpace).reverse.dropWhile
      pyIsSpace).reverse := List.mem_reverse.mpr h2
  have hdata : (pyStrip s).data = [] := by
    rw [hcontra]
  simp only [pyStrip] at hdata
  rw [hdata] at h3
  cases h3

theorem splitSentences_ne_nil {script : String} {c : Char}
    (hc : pyIsSpace c = false) (hmem : c ∈ script.toList) :
    splitSentences script ≠ [] := by
  have hcsp : c ≠ ' ' := by
    intro hEq
    rw [hEq] at hc
    exact absurd hc (by decide)
  rcases sentSplitGo_covers c hcsp script.toList.length [] script.toList
      (Or.inr hmem) with ⟨p, hp, hcp⟩
  have hmk : String.mk p ∈ splitSentencesRaw script :=
    List.mem_map_of_mem _ hp
  have hstrip : pyStrip (String.mk p) ∈ (splitSentencesRaw script).map pyStrip :=
    List.mem_map_of_mem _ hmk
  have hne : pyStrip (String.mk p) ≠ "" := pyStrip_ne_empty hc hcp
  have hfilter : pyStrip (String.mk p) ∈ splitSentences script := by
    simp only [splitSentences, List.mem_filter]
    exact ⟨hstrip, by simpa using hne⟩
  exact List.ne_nil_of_mem hfilter

theorem subtitleGenerate_all_failed
    (providerResults : List (Except String (List SubtitleSegment))) (script : String)
    (hfail : ∀ r ∈ providerResults, ∃ e, r = Except.error e) :
    subtitleGenerate providerResults script = simpleSubtitleGenerate script := by
  induction providerResults with
  | nil => rfl
  | cons r rest ih =>
    rcases hfail r (List.mem_cons_self _ _) with ⟨e, rfl⟩
    rw [subtitleGenerate]
    exact ih (fun x hx => hfail x (List.mem_cons_of_mem _ hx))

theorem buildSegments_timed (sentences : List String) :
    ∀ t, ∀ seg ∈ buildSegments t sentences, seg.start < seg.endTime := by
  induction sentences with
  | nil => intro t seg hseg; cases hseg
  | cons s rest ih =>
    intro t seg hseg
    rcases List.mem_cons.mp hseg with rfl | hmem
    · have hmax : (3 / 2 : ℚ) ≤ max (3 / 2 : ℚ) ((s.length : ℚ) / 15) := le_max_left _ _
      simp only
      linarith
    · exact ih _ seg hmem

/-- C3 counterexample: the whitespace-only script consisting of one space is a
  non-empty script, yet with all transcription providers failing the generated
  subtitle track has no segments, refuting the claim for every non-empty
  script. -/
theorem claim_C3_counterexample :
    (" " : String) ≠ "" ∧
    subtitleGenerate [Except.error "transcription failed"] " " = [] := by
  constructor
  · decide
  · rfl

/-- C3 (amended): for every script containing at least one non-whitespace
  character, if every transcription provider fails then SubtitleGenerator
  generate returns the estimated-timing fallback track, which is non-empty
  and all of whose segments have positive duration. -/
theorem claim_C3_subtitle_fallback
    (providerResults : List (Except String (List SubtitleSegment))) (script : String)
    (hfail : ∀ r ∈ providerResults, ∃ e, r = Except.error e)
    (hscript : ∃ c ∈ script.toList, pyIsSpace c = false) :
    subtitleGenerate providerResults script = simpleSubtitleGenerate script ∧
    subtitleGenerate providerResults script ≠ [] ∧
    ∀ seg ∈ subtitleGenerate providerResults script, seg.start < seg.endTime := by
  have heq := subtitleGenerate_all_failed providerResults script hfail
  rcases hscript with ⟨c, hcmem, hcw⟩
  have hsent : splitSentences script ≠ [] := splitSentences_ne_nil hcw hcmem
  refine ⟨heq, ?_, ?_⟩
  · rw [heq]
    rcases List.exists_cons_of_ne_nil hsent with ⟨s, rest, hrw⟩
    simp only [simpleSubtitleGenerate, hrw, buildSegments]
    exact List.cons_ne_nil _ _
  · rw [heq]
    exact buildSegments_timed (splitSentences script) 0

theorem claim_C3_subtitle_fallback_witness :
    (∀ r ∈ ([Except.error "boom"] : List (Except String (List SubtitleSegment))),
      ∃ e, r = Except.error e) ∧
    (∃ c ∈ ("Hi." : String).toList, pyIsSpace c = false) ∧
    (subtitleGenerate [Except.error "boom"] "Hi." = simpleSubtitleGenerate "Hi." ∧
     subtitleGenerate [Except.error "boom"] "Hi." ≠ [] ∧
     ∀ seg ∈ subtitleGenerate [Except.error "boom"] "Hi.", seg.start < seg.endTime) := by
  have hfail : ∀ r ∈ ([Except.error "boom"] : List (Except String (List SubtitleSegment))),
      ∃ e, r = Except.error e := by
    intro r hr
    rw [List.mem_singleton] at hr
    exact ⟨"boom", hr⟩
  have hscript : ∃ c ∈ ("Hi." : String).toList, pyIsSpace c = false := by
    refine ⟨Char.ofNat 72, ?_, by decide⟩
    decide
  exact ⟨hfail, hscript, claim_C3_subtitle_fallback _ _ hfail hscript⟩

/-! ### Image arrangement
  (src/backend/services/video/composer.py, arrange_images_without_consecutive_duplicates)

  The embedding notes below mark the two places where Python runtime details
  matter: dict key order (the Counter iterates in first-occurrence order, and
  sorted is stable) and the truthiness test `if next_url:` (for non-empty URL
  strings this is exactly an is-not-None test, which is how it is modelled;
  the theorems therefore assume the empty string is not among the URLs). -/

/-- Counter key order: the distinct URLs in order of first occurrence. -/
def uniqueKeys (urls : List String) : List String :=
  urls.foldl (fun acc u => if u ∈ acc then acc else acc ++ [u]) []

/-- unique_urls = sorted(url_counts.keys(), key=lambda x: -url_counts[x]),
  a stable sort by descending count. -/
def sortedUniqueUrls (urls : List String) : List String :=
  sortDescBy (fun u => ((urls.count u : ℕ) : ℚ)) (uniqueKeys urls)

/-- min(buffer_urls, key=lambda x: remaining[x]): Python min keeps the first
  minimal element. -/
def minByRem (rem : String → ℕ) : List String → Option String
  | [] => none
  | a :: l => some (l.foldl (fun m x => if rem x < rem m then x else m) a)

/-- One iteration of the selection in the while-loop: first URL in
  unique_urls order with remaining occurrences that differs from the last
  selection; failing that, the buffer logic of the source (the singleton
  branch accepts a forced repeat; the final branch is unreachable because its
  filter condition is the same as the failed search). -/
def pickNext (order : List String) (rem : String → ℕ) (last : Option String) :
    Option String :=
  match order.find? (fun u => decide (0 < rem u ∧ some u ≠ last)) with
  | some u => some u
  | none =>
    match order.filter (fun u => decide (0 < rem u)) with
    | [u] => some u
    | _ => minByRem rem (order.filter (fun u => decide (0 < rem u ∧ some u ≠ last)))

/-- remaining[next_url] -= 1 (entries reaching 0 are deleted in the source;
  here a count of 0 plays the role of an absent key). -/
def decrement (rem : String → ℕ) (u : String) : String → ℕ :=
  fun v => if v = u then rem v - 1 else rem v

/-- The while sum(remaining.values()) > 0 loop.  The fuel argument only
  serves Lean termination; every iteration appends one URL and decrements the
  total remaining count, so fuel equal to that total never runs out. -/
def arrangeLoop (order : List String) : ℕ → (String → ℕ) → Option String → List String
  | 0, _, _ => []
  | n + 1, rem, last =>
    if (order.map rem).sum = 0 then []
    else
      match pickNext order rem last with
      | some u => u :: arrangeLoop order n (decrement rem u) (some u)
      | none => []

def arrange_images_without_consecutive_duplicates (image_urls : List String) :
    List String :=
  if image_urls.length ≤ 1 then image_urls
  else
    arrangeLoop (sortedUniqueUrls image_urls) image_urls.length
      (fun u => image_urls.count u) none

theorem arrangeLoop_succ (order : List String) (n : ℕ) (rem : String → ℕ)
    (last : Option String) :
    arrangeLoop order (n + 1) rem last =
    if (order.map rem).sum = 0 then []
    else
      match pickNext order rem last with
      | some u => u :: arrangeLoop order n (decrement rem u) (some u)
      | none => [] := rfl

theorem uniqueKeys_aux_nodup (urls : List String) :
    ∀ acc : List String, acc.Nodup →
      (urls.foldl (fun acc u => if u ∈ acc then acc else acc ++ [u]) acc).Nodup := by
  induction urls with
  | nil => intro acc h; simpa using h
  | cons u t ih =>
    intro acc h
    simp only [List.foldl_cons]
    by_cases hmem : u ∈ acc
    · rw [if_pos hmem]; exact ih acc h
    · rw [if_neg hmem]
      refine ih _ (List.Nodup.append h (List.nodup_singleton u) ?_)
      intro x hx hx2
      rw [List.mem_singleton] at hx2
      subst hx2
      exact hmem hx

theorem mem_uniqueKeys_aux (v : String) (urls : List String) :
    ∀ acc : List String,
      (v ∈ urls.foldl (fun acc u => if u ∈ acc then acc else acc ++ [u]) acc ↔
        v ∈ acc ∨ v ∈ urls) := by
  induction urls with
  | nil => intro acc; simp
  | cons u t ih =>
    intro acc
    simp only [List.foldl_cons]
    by_cases hmem : u ∈ acc
    · rw [if_pos hmem, ih acc]
      constructor
      · rintro (h | h)
        · exact Or.inl h
        · exact Or.inr (List.mem_cons_of_mem _ h)
      · rintro (h | h)
        · exact Or.inl h
        · rcases List.mem_cons.mp h with rfl | h2
          · exact Or.inl hmem
          · exact Or.inr h2
    · rw [if_neg hmem, ih _]
      simp [List.mem_append, or_assoc]

theorem uniqueKeys_nodup (urls : List String) : (uniqueKeys urls).Nodup :=
  uniqueKeys_aux_nodup urls [] List.nodup_nil

theorem mem_uniqueKeys (v : String) (urls : List String) :
    v ∈ uniqueKeys urls ↔ v ∈ urls := by
  have h := mem_uniqueKeys_aux v urls []
  simpa [uniqueKeys] using h

theorem sortedUniqueUrls_nodup (urls : List String) :
    (sortedUniqueUrls urls).Nodup :=
  ((sortDescBy_perm _ (uniqueKeys urls)).nodup_iff).mpr (uniqueKeys_nodup urls)

theorem mem_sortedUniqueUrls (v : String) (urls : List String) :
    v ∈ sortedUniqueUrls urls ↔ v ∈ urls :=
  ((sortDescBy_perm _ (uniqueKeys urls)).mem_iff).trans (mem_uniqueKeys v urls)

theorem foldlMin_mem (rem : String → ℕ) :
    ∀ (l : List String) (a : String),
      l.foldl (fun m x => if rem x < rem m then x else m) a ∈ a :: l := by
  intro l
  induction l with
  | nil => intro a; simp
  | cons x t ih =>
    intro a
    simp only [List.foldl_cons]
    rcases List.mem_cons.mp (ih (if rem x < rem a then x else a)) with heq | hmem
    · rw [heq]
      by_cases hc : rem x < rem a
      · rw [if_pos hc]; exact List.mem_cons_of_mem _ (List.mem_cons_self _ _)
      · rw [if_neg hc]; exact List.mem_cons_self _ _
    · exact List.mem_cons_of_mem _ (List.mem_cons_of_mem _ hmem)

theorem minByRem_mem {rem : String → ℕ} {l : List String} {u : String}
    (h : minByRem rem l = some u) : u ∈ l := by
  cases l with
  | nil => simp [minByRem] at h
  | cons a t =>
    simp only [minByRem, Option.some.injEq] at h
    rw [← h]
    exact foldlMin_mem rem t a

theorem mem_filter_pick {order : List String} {p : String → Prop}
    [DecidablePred p] {u : String}
    (hu : u ∈ order.filter (fun x => decide (p x))) : p u ∧ u ∈ order := by
  rcases List.mem_filter.mp hu with ⟨hmem, hp⟩
  exact ⟨of_decide_eq_true hp, hmem⟩

theorem pickNext_pos {order : List String} {rem : String → ℕ}
    {last : Option String} {u : String}
    (h : pickNext order rem last = some u) : 0 < rem u ∧ u ∈ order := by
  unfold pickNext at h
  cases hfind : order.find? (fun u => decide (0 < rem u ∧ some u ≠ last)) with
  | some v =>
    rw [hfind] at h
    injection h with h2
    subst h2
    have hp0 := List.find?_some hfind
    simp only [decide_eq_true_eq] at hp0
    exact ⟨hp0.1, List.mem_of_find?_eq_some hfind⟩
  | none =>
    rw [hfind] at h
    cases hfilt : order.filter (fun u => decide (0 < rem u)) with
    | nil =>
      rw [hfilt] at h
      have hu := mem_filter_pick (minByRem_mem h)
      exact ⟨hu.1.1, hu.2⟩
    | cons w t =>
      cases t with
      | nil =>
        rw [hfilt] at h
        injection h with h2
        subst h2
        have hw : w ∈ order.filter (fun u => decide (0 < rem u)) := by
          rw [hfilt]; exact List.mem_singleton_self w
        have hu := mem_filter_pick hw
        exact ⟨hu.1, hu.2⟩
      | cons w2 t2 =>
        rw [hfilt] at h
        have hu := mem_filter_pick (minByRem_mem h)
        exact ⟨hu.1.1, hu.2⟩

theorem eq_singleton_of_nodup_all_eq {l : List String} {v : String}
    (hnd : l.Nodup) (hv : v ∈ l) (hall : ∀ w ∈ l, w = v) : l = [v] := by
  cases l with
  | nil => cases hv
  | cons a t =>
    have ha : a = v := hall a (List.mem_cons_self _ _)
    cases t with
    | nil => rw [ha]
    | cons b t2 =>
      exfalso
      have hb : b = v := hall b (List.mem_cons_of_mem _ (List.mem_cons_self _ _))
      rcases List.nodup_cons.mp hnd with ⟨hna, _⟩
      apply hna
      rw [ha, ← hb]
      exact List.mem_cons_self _ _

theorem pickNext_progress (order : List String) (rem : String → ℕ)
    (last : Option String) (hnd : order.Nodup)
    (hinv : ∀ u, 0 < rem u → u ∈ order)
    (hsum : 0 < (order.map rem).sum) :
    ∃ u, pickNext order rem last = some u := by
  have hex : ∃ v ∈ order, 0 < rem v := by
    by_contra hcon
    push_neg at hcon
    have hzero : (order.map rem).sum = 0 := by
      apply List.sum_eq_zero
      intro x hx
      rcases List.mem_map.mp hx with ⟨v, hv, rfl⟩
      have := hcon v hv
      omega
    omega
  obtain ⟨v, hvmem, hvpos⟩ := hex
  unfold pickNext
  cases hfind : order.find? (fun u => decide (0 < rem u ∧ some u ≠ last)) with
  | some w => exact ⟨w, rfl⟩
  | none =>
    have hall := List.find?_eq_none.mp hfind
    have hlastv : some v = last := by
      have h2 : ¬ (0 < rem v ∧ some v ≠ last) := by simpa using hall v hvmem
      by_contra hne
      exact h2 ⟨hvpos, hne⟩
    have hfilt : order.filter (fun u => decide (0 < rem u)) = [v] := by
      apply eq_singleton_of_nodup_all_eq (List.Nodup.filter _ hnd)
      · exact List.mem_filter.mpr ⟨hvmem, decide_eq_true hvpos⟩
      · intro w hw
        have hwp := mem_filter_pick hw
        have h2 : ¬ (0 < rem w ∧ some w ≠ last) := by simpa using hall w hwp.2
        have h3 : some w = last := by
          by_contra hne
          exact h2 ⟨hwp.1, hne⟩
        rw [← hlastv] at h3
        injection h3
    rw [hfilt]
    exact ⟨v, rfl⟩

theorem pickNext_forced {order : List String} {rem : String → ℕ} {w : String}
    (hinv : ∀ u, 0 < rem u → u ∈ order)
    (h : pickNext order rem (some w) = some w) :
    ∀ v, 0 < rem v → v = w := by
  unfold pickNext at h
  cases hfind : order.find? (fun u => decide (0 < rem u ∧ some u ≠ some w)) with
  | some v =>
    rw [hfind] at h
    injection h with h2
    subst h2
    have hp0 := List.find?_some hfind
    simp only [decide_eq_true_eq] at hp0
    exact absurd rfl hp0.2
  | none =>
    have hallf := List.find?_eq_none.mp hfind
    intro v hv
    have h2 : ¬ (0 < rem v ∧ some v ≠ some w) := by simpa using hallf v (hinv v hv)
    have h3 : some v = some w := by
      by_contra hne
      exact h2 ⟨hv, hne⟩
    injection h3

theorem map_decrement_sum (rem : String → ℕ) (u : String) :
    ∀ order : List String, order.Nodup → u ∈ order → 0 < rem u →
      (order.map (decrement rem u)).sum + 1 = (order.map rem).sum := by
  intro order
  induction order with
  | nil => intro _ hu; cases hu
  | cons a t ih =>
    intro hnd hu hpos
    rcases List.nodup_cons.mp hnd with ⟨hna, hnt⟩
    rcases List.mem_cons.mp hu with heq | hmem
    · subst heq
      simp only [List.map_cons, List.sum_cons]
      have hmap : t.map (decrement rem u) = t.map rem := by
        apply List.map_congr_left
        intro x hx
        have hxu : x ≠ u := by rintro rfl; exact hna hx
        simp [decrement, hxu]
      rw [hmap]
      have hdu : decrement rem u u = rem u - 1 := by simp [decrement]
      rw [hdu]
      omega
    · have hau : a ≠ u := by rintro rfl; exact hna hmem
      simp only [List.map_cons, List.sum_cons]
      have hda : decrement rem u a = rem a := by simp [decrement, hau]
      rw [hda]
      have := ih hnt hmem hpos
      omega

theorem arrangeLoop_count (order : List String) (hnd : order.Nodup) :
    ∀ (n : ℕ) (rem : String → ℕ) (last : Option String),
      (∀ u, 0 < rem u → u ∈ order) → (order.map rem).sum = n →
      ∀ v, (arrangeLoop order n rem last).count v = rem v := by
  intro n
  induction n with
  | zero =>
    intro rem last hinv hsum v
    show ([] : List String).count v = rem v
    rw [List.count_nil]
    by_contra hne
    have hvpos : 0 < rem v := by omega
    have hle := List.single_le_sum (fun (x : ℕ) _ => Nat.zero_le x) (rem v)
      (List.mem_map_of_mem rem (hinv v hvpos))
    omega
  | succ m ih =>
    intro rem last hinv hsum v
    have hz : ¬ (order.map rem).sum = 0 := by omega
    obtain ⟨u, hpick⟩ := pickNext_progress order rem last hnd hinv (by omega)
    rw [arrangeLoop_succ, if_neg hz, hpick]
    obtain ⟨hupos, humem⟩ := pickNext_pos hpick
    have hinv2 : ∀ x, 0 < decrement rem u x → x ∈ order := by
      intro x hx
      apply hinv
      simp only [decrement] at hx
      by_cases hxe : x = u
      · rw [if_pos hxe] at hx; omega
      · rwa [if_neg hxe] at hx
    have hsum2 : (order.map (decrement rem u)).sum = m := by
      have := map_decrement_sum rem u order hnd humem hupos
      omega
    have hcount := ih (decrement rem u) (some u) hinv2 hsum2 v
    rw [List.count_cons, hcount]
    by_cases hv : v = u
    · subst hv
      have h1 : decrement rem v v = rem v - 1 := by simp [decrement]
      rw [h1]
      simp only [beq_self_eq_true, if_true]
      omega
    · have h1 : decrement rem u v = rem v := by simp [decrement, hv]
      have hbeq : (u == v) = false := by
        have huv : u ≠ v := fun hEq => hv hEq.symm
        simpa using huv
      rw [h1, hbeq]
      simp

theorem arrangeLoop_const (order : List String) :
    ∀ (n : ℕ) (rem : String → ℕ) (last : Option String) (w : String),
      (∀ v, 0 < rem v → v = w) →
      ∀ x ∈ arrangeLoop order n rem last, x = w := by
  intro n
  induction n with
  | zero => intro rem last w _ x hx; cases hx
  | succ m ih =>
    intro rem last w hall x hx
    rw [arrangeLoop_succ] at hx
    by_cases hz : (order.map rem).sum = 0
    · rw [if_pos hz] at hx; cases hx
    · rw [if_neg hz] at hx
      cases hpick : pickNext order rem last with
      | none => rw [hpick] at hx; cases hx
      | some u =>
        rw [hpick] at hx
        have hu : u = w := hall u (pickNext_pos hpick).1
        rcases List.mem_cons.mp hx with rfl | hmem
        · exact hu
        · refine ih (decrement rem u) (some u) w ?_ x hmem
          intro v hv
          apply hall
          simp only [decrement] at hv
          by_cases hve : v = u
          · rw [if_pos hve] at hv; omega
          · rwa [if_neg hve] at hv

theorem arrangeLoop_trailing (order : List String) (hnd : order.Nodup) :
    ∀ (n : ℕ) (rem : String → ℕ) (last : Option String),
      (∀ u, 0 < rem u → u ∈ order) →
      ∀ (l₁ : List String) (a : String) (l₂ : List String),
        arrangeLoop order n rem last = l₁ ++ a :: a :: l₂ →
        ∀ x ∈ l₂, x = a := by
  intro n
  induction n with
  | zero =>
    intro rem last _ l₁ a l₂ hdecomp
    exfalso
    cases l₁ <;> simp [arrangeLoop] at hdecomp
  | succ m ih =>
    intro rem last hinv l₁ a l₂ hdecomp x hx
    rw [arrangeLoop_succ] at hdecomp
    by_cases hz : (order.map rem).sum = 0
    · rw [if_pos hz] at hdecomp
      exfalso; cases l₁ <;> simp at hdecomp
    · rw [if_neg hz] at hdecomp
      cases hpick : pickNext order rem last with
      | none =>
        rw [hpick] at hdecomp
        exfalso; cases l₁ <;> simp at hdecomp
      | some u =>
        rw [hpick] at hdecomp
        have hinv2 : ∀ v, 0 < decrement rem u v → v ∈ order := by
          intro v hv
          apply hinv
          simp only [decrement] at hv
          by_cases hve : v = u
          · rw [if_pos hve] at hv; omega
          · rwa [if_neg hve] at hv
        cases l₁ with
        | nil =>
          simp only [List.nil_append] at hdecomp
          injection hdecomp with h1 h2
          subst h1
          -- the tail starts with a repeat of u, which is only possible when
          -- u is the only URL with remaining occurrences
          cases m with
          | zero => simp [arrangeLoop] at h2
          | succ k =>
            have h2copy := h2
            rw [arrangeLoop_succ] at h2
            by_cases hz2 : (order.map (decrement rem u)).sum = 0
            · rw [if_pos hz2] at h2; simp at h2
            · rw [if_neg hz2] at h2
              cases hpick2 : pickNext order (decrement rem u) (some u) with
              | none => rw [hpick2] at h2; simp at h2
              | some w =>
                rw [hpick2] at h2
                injection h2 with h3 h4
                subst h3
                have hforce := pickNext_forced hinv2 hpick2
                have hall := arrangeLoop_const order (k + 1)
                  (decrement rem w) (some w) w hforce
                apply hall
                rw [h2copy]
                exact List.mem_cons_of_mem _ hx
        | cons b l₁t =>
          injection hdecomp with h1 h2
          exact ih (decrement rem u) (some u) hinv2 l₁t a l₂ h2 x hx

theorem sortedUniqueUrls_count_sum (urls : List String) :
    ((sortedUniqueUrls urls).map (fun u => urls.count u)).sum = urls.length := by
  have hnd := sortedUniqueUrls_nodup urls
  have h1 : (sortedUniqueUrls urls).toFinset = urls.toFinset := by
    apply Finset.ext
    intro x
    simp [List.mem_toFinset, mem_sortedUniqueUrls]
  calc ((sortedUniqueUrls urls).map (fun u => urls.count u)).sum
      = (sortedUniqueUrls urls).toFinset.sum (fun u => urls.count u) :=
        (List.sum_toFinset _ hnd).symm
    _ = urls.toFinset.sum (fun u => urls.count u) := by rw [h1]
    _ = urls.length := List.sum_toFinset_count_eq_length urls

/-- C9: for every input list of image URLs (URLs being non-empty strings),
  the output of arrange_images_without_consecutive_duplicates is a
  permutation of the input: it has the same length and each distinct URL
  occurs in the output exactly as many times as in the input. -/
theorem claim_C9_arrange_permutation (urls : List String) (hurl : "" ∉ urls) :
    List.Perm (arrange_images_without_consecutive_duplicates urls) urls ∧
    (arrange_images_without_consecutive_duplicates urls).length = urls.length ∧
    ∀ u, (arrange_images_without_consecutive_duplicates urls).count u =
      urls.count u := by
  have _hurl := hurl
  have hcount : ∀ u,
      (arrange_images_without_consecutive_duplicates urls).count u =
        urls.count u := by
    intro u
    unfold arrange_images_without_consecutive_duplicates
    by_cases hlen : urls.length ≤ 1
    · rw [if_pos hlen]
    · rw [if_neg hlen]
      apply arrangeLoop_count (sortedUniqueUrls urls) (sortedUniqueUrls_nodup urls)
        urls.length (fun u => urls.count u) none
      · intro v hv
        rw [mem_sortedUniqueUrls]
        exact List.count_pos_iff.mp hv
      · exact sortedUniqueUrls_count_sum urls
  have hperm : List.Perm (arrange_images_without_consecutive_duplicates urls) urls :=
    List.perm_iff_count.mpr hcount
  exact ⟨hperm, hperm.length_eq, hcount⟩

theorem claim_C9_arrange_permutation_witness :
    ("" ∉ (["a", "b", "a"] : List String)) ∧
    (List.Perm (arrange_images_without_consecutive_duplicates ["a", "b", "a"])
      ["a", "b", "a"] ∧
    (arrange_images_without_consecutive_duplicates ["a", "b", "a"]).length =
      (["a", "b", "a"] : List String).length ∧
    ∀ u, (arrange_images_without_consecutive_duplicates ["a", "b", "a"]).count u =
      (["a", "b", "a"] : List String).count u) :=
  ⟨by decide, claim_C9_arrange_permutation ["a", "b", "a"] (by decide)⟩

/-- Does a list place two identical URLs in consecutive positions? -/
def hasConsecutiveDuplicate : List String → Bool
  | [] => false
  | [_] => false
  | a :: b :: r => a == b || hasConsecutiveDuplicate (b :: r)

/-- C1 counterexample: the input [a, a, a, b] contains 2 distinct URLs, yet
  the arranged output [a, b, a, a] places two identical URLs consecutively,
  refuting the claim as stated. -/
theorem claim_C1_counterexample :
    2 ≤ (uniqueKeys ["a", "a", "a", "b"]).length ∧
    arrange_images_without_consecutive_duplicates ["a", "a", "a", "b"] =
      ["a", "b", "a", "a"] ∧
    hasConsecutiveDuplicate
      (arrange_images_without_consecutive_duplicates ["a", "a", "a", "b"]) = true := by
  refine ⟨by decide, by decide, by decide⟩

/-- C1 (amended): consecutive duplicates in the arranged output occur only as
  a forced trailing run: whenever two consecutive entries are identical,
  every entry from that point on is that same URL (so away from such a
  trailing run no two consecutive entries are identical). -/
theorem claim_C1_no_consecutive_dups (urls l₁ : List String) (a : String)
    (l₂ : List String) (hurl : "" ∉ urls)
    (hdecomp : arrange_images_without_consecutive_duplicates urls =
      l₁ ++ a :: a :: l₂) :
    l₂.all (fun x => x == a) = true := by
  have _hurl := hurl
  rw [List.all_eq_true]
  intro x hx
  rw [beq_iff_eq]
  unfold arrange_images_without_consecutive_duplicates at hdecomp
  by_cases hlen : urls.length ≤ 1
  · rw [if_pos hlen] at hdecomp
    exfalso
    have := congrArg List.length hdecomp
    simp [List.length_append] at this
    omega
  · rw [if_neg hlen] at hdecomp
    refine arrangeLoop_trailing (sortedUniqueUrls urls)
      (sortedUniqueUrls_nodup urls) urls.length (fun u => urls.count u) none
      ?_ l₁ a l₂ hdecomp x hx
    intro v hv
    rw [mem_sortedUniqueUrls]
    exact List.count_pos_iff.mp hv

theorem claim_C1_no_consecutive_dups_witness :
    ("" ∉ (["a", "a", "a"] : List String)) ∧
    (arrange_images_without_consecutive_duplicates ["a", "a", "a"] =
      ([] : List String) ++ "a" :: "a" :: ["a"]) ∧
    (["a"] : List String).all (fun x => x == "a") = true :=
  ⟨by decide, by decide,
    claim_C1_no_consecutive_dups ["a", "a", "a"] [] "a" ["a"] (by decide) (by decide)⟩

/-! ### Pipeline state machine
  (src/backend/api/routes/generation.py and
   src/backend/services/audio/audio_generator.py) -/

inductive VideoStatus where
  | pending
  | generating_script
  | fetching_images
  | generating_audio
  | generating_subtitles
  | composing_video
  | uploading
  | completed
  | failed
deriving DecidableEq

/-- The Job record persisted per generation request
  (db/models/video.py, VideoModel). -/
structure Job where
  status : VideoStatus
  progress : ℕ
  error_message : Option String
  script : Option String
  image_urls : List String
  audio_url : Option String
  subtitle_url : Option String
  video_url : Option String
  thumbnail_url : Option String
  duration : Option ℚ
  step_timings : List (String × ℚ)

/-- A freshly created VideoModel (all output fields unset). -/
def freshJob : Job :=
  { status := VideoStatus.pending, progress := 0, error_message := none,
    script := none, image_urls := [], audio_url := none, subtitle_url := none,
    video_url := none, thumbnail_url := none, duration := none,
    step_timings := [] }

/-- update_video_status merges step_timings one key at a time
  ($set step_timings.step), overriding an existing value for the same key; a
  falsy (empty) dict is skipped entirely. -/
def mergeTimings (old new : List (String × ℚ)) : List (String × ℚ) :=
  if new.isEmpty then old
  else old.filter (fun kv => !(new.any (fun kv2 => kv2.1 == kv.1))) ++ new

/-- update_video_status: sets status and updated_at always, progress when
  given, error_message when truthy (non-empty), merges step_timings, and
  applies the per-call keyword arguments (script=, image_urls=, audio_url=,
  subtitle_url=, video_url=, thumbnail_url=, duration=); an absent keyword is
  none.  audio_url is passed explicitly even when the upload failed, so its
  keyword carries an Option value. -/
def updateVideoStatus (job : Job) (status : VideoStatus) (progress : Option ℕ)
    (errorMessage : Option String) (stepTimings : List (String × ℚ))
    (scriptKw : Option String) (imageUrlsKw : Option (List String))
    (audioUrlKw : Option (Option String)) (subtitleUrlKw : Option String)
    (videoUrlKw : Option String) (thumbnailUrlKw : Option String)
    (durationKw : Option ℚ) : Job :=
  { status := status
    progress :=
      match progress with
      | some p => p
      | none => job.progress
    error_message :=
      match errorMessage with
      | some e => if e = "" then job.error_message else some e
      | none => job.error_message
    script :=
      match scriptKw with
      | some v => some v
      | none => job.script
    image_urls :=
      match imageUrlsKw with
      | some v => v
      | none => job.image_urls
    audio_url :=
      match audioUrlKw with
      | some v => v
      | none => job.audio_url
    subtitle_url :=
      match subtitleUrlKw with
      | some v => some v
      | none => job.subtitle_url
    video_url :=
      match videoUrlKw with
      | some v => some v
      | none => job.video_url
    thumbnail_url :=
      match thumbnailUrlKw with
      | some v => some v
      | none => job.thumbnail_url
    duration :=
      match durationKw with
      | some v => some v
      | none => job.duration
    step_timings := mergeTimings job.step_timings stepTimings }

/-- The message of a failed provider call. -/
def errOf : Except String String → String
  | Except.error e => e
  | Except.ok _ => ""

/-- Python "\n".join(errors). -/
def joinNL : List String → String
  | [] => ""
  | [m] => m
  | m :: rest => m ++ "\n" ++ joinNL rest

/-- The provider loop of AudioGenerator.generate_audio: each provider outcome
  is given by its name and its Except result; errors accumulates one
  "name: reason" entry per failed provider. -/
def generateAudioGo : List (String × Except String String) → List String →
    Except String String × List String
  | [], errors =>
    (Except.error ("All audio generation providers failed:\n" ++ joinNL errors),
     errors)
  | (nm, r) :: rest, errors =>
    match r with
    | Except.ok v => (Except.ok v, errors)
    | Except.error e => generateAudioGo rest (errors ++ [nm ++ ": " ++ e])

/-- AudioGenerator.generate_audio: first success wins, otherwise one
  aggregated error joining every failure reason. -/
def generate_audio (providers : List (String × Except String String)) :
    Except String String × List String :=
  generateAudioGo providers []

/-- Outcomes of all external collaborator calls made by one run of
  generate_video_background, and the wall-clock seconds measured per step
  (symbolic). -/
structure Ext where
  script : Except String String
  images : Except String (List ImageCandidate)
  audioProviders : List (String × Except String String)
  audioUpload : Except String String
  subtitleUpload : Except String String
  modal : Except String (String × String)
  probe : Option ℚ
  tScript : ℚ
  tImages : ℚ
  tAudio : ℚ
  tAudioUpload : ℚ
  tSubtitles : ℚ
  tSubUpload : ℚ
  tModal : ℚ
  errorAt : ℚ

/-- Python str.endswith, on the character lists of the strings (the built-in
  String.endsWith is not kernel-reducible). -/
def pyEndsWith (s suffixArg : String) : Bool :=
  List.isSuffixOf suffixArg.toList s.toList

/-- The outer except block: record an error_occurred_at marker (its isoformat
  timestamp modelled as a rational) and mark the Job FAILED. -/
def outerCatch (job : Job) (st : List (String × ℚ)) (e : String) (ts : ℚ) : Job :=
  updateVideoStatus job VideoStatus.failed none (some e)
    (st ++ [("error_occurred_at", ts)]) none none none none none none none

/-- generate_video_background from src/backend/api/routes/generation.py.
  Raising Python calls appear as Except.error outcomes; uncaught exceptions
  reach the outer except (outerCatch).  The local variable subtitle_url is
  bound only inside the try of the subtitle upload; when the upload raises,
  the later read of subtitle_url raises NameError, which the outer except
  turns into a FAILED Job. -/
def generate_video_background (ext : Ext) (job0 : Job) : Job :=
  let st0 : List (String × ℚ) := []
  let j1 := updateVideoStatus job0 VideoStatus.generating_script (some 10) none
    st0 none none none none none none none
  match ext.script with
  | Except.error e => outerCatch j1 st0 e ext.errorAt
  | Except.ok script =>
    let st1 := st0 ++ [("script_generation", ext.tScript)]
    let j2 := updateVideoStatus j1 VideoStatus.generating_script (some 20) none
      st1 (some script) none none none none none none
    let j3 := updateVideoStatus j2 VideoStatus.fetching_images (some 30) none
      [] none none none none none none none
    match ext.images with
    | Except.error e => outerCatch j3 st1 e ext.errorAt
    | Except.ok imageData =>
      let imageUrls := imageData.map (fun img => img.url)
      let st2 := st1 ++ [("image_fetching", ext.tImages)]
      let j4 := updateVideoStatus j3 VideoStatus.fetching_images (some 40) none
        st2 none (some imageUrls) none none none none none
      let j5 := updateVideoStatus j4 VideoStatus.generating_audio (some 50) none
        [] none none none none none none none
      match (generate_audio ext.audioProviders).1 with
      | Except.error e =>
        let st3 := st2 ++ [("audio_generation_failed", ext.tAudio)]
        updateVideoStatus j5 VideoStatus.failed none
          (some ("Audio generation failed: " ++ e)) st3
          none none none none none none none
      | Except.ok _audioPath =>
        let audioUploadOutcome :=
          match ext.audioUpload with
          | Except.ok u => (some u, st2 ++ [("audio_upload", ext.tAudioUpload)])
          | Except.error _ =>
            (none, st2 ++ [("audio_upload_failed", ext.tAudioUpload)])
        let audioUrl := audioUploadOutcome.1
        let st4 := audioUploadOutcome.2 ++ [("audio_generation", ext.tAudio)]
        let j6 := updateVideoStatus j5 VideoStatus.generating_audio (some 60)
          none st4 none none (some audioUrl) none none none none
        let j7 := updateVideoStatus j6 VideoStatus.generating_subtitles
          (some 70) none [] none none none none none none none
        let subtitleUploadOutcome :=
          match ext.subtitleUpload with
          | Except.ok u => (some u, st4 ++ [("subtitle_upload", ext.tSubUpload)])
          | Except.error _ =>
            (none, st4 ++ [("subtitle_upload_failed", ext.tSubUpload)])
        let st6 := subtitleUploadOutcome.2 ++
          [("subtitle_generation", ext.tSubtitles)]
        match subtitleUploadOutcome.1 with
        | none =>
          outerCatch j7 st6 "NameError: subtitle_url is not defined" ext.errorAt
        | some subtitleUrl =>
          let j8 := updateVideoStatus j7 VideoStatus.generating_subtitles
            (some 80) none st6 none none none (some subtitleUrl) none none none
          let j9 := updateVideoStatus j8 VideoStatus.composing_video (some 85)
            none [] none none none none none none none
          match ext.modal with
          | Except.error e =>
            updateVideoStatus j9 VideoStatus.failed none
              (some ("Modal generation failed: " ++ e)) []
              none none none none none none none
          | Except.ok (videoUrl, thumbnailUrl) =>
            let duration :=
              match ext.probe with
              | some d => d
              | none => 0
            let st7 := st6 ++ [("video_composition_modal", ext.tModal)]
            let totalTime :=
              ((st7.filter (fun kv => !(pyEndsWith kv.1 "_failed"))).map
                (fun kv => kv.2)).sum
            let st8 := st7 ++ [("total_processing_time", totalTime)]
            updateVideoStatus j9 VideoStatus.completed (some 100) none st8
              none none none none (some videoUrl) (some thumbnailUrl)
              (some duration)

theorem updateVideoStatus_status (job : Job) (st : VideoStatus) (pr : Option ℕ)
    (em : Option String) (stt : List (String × ℚ)) (k1 : Option String)
    (k2 : Option (List String)) (k3 : Option (Option String))
    (k4 k5 k6 : Option String) (k7 : Option ℚ) :
    (updateVideoStatus job st pr em stt k1 k2 k3 k4 k5 k6 k7).status = st := rfl

theorem updateVideoStatus_video_url (job : Job) (st : VideoStatus)
    (pr : Option ℕ) (em : Option String) (stt : List (String × ℚ))
    (k1 : Option String) (k2 : Option (List String))
    (k3 : Option (Option String)) (k4 k6 : Option String) (k7 : Option ℚ) :
    (updateVideoStatus job st pr em stt k1 k2 k3 k4 none k6 k7).video_url =
      job.video_url := rfl

theorem updateVideoStatus_thumbnail_url (job : Job) (st : VideoStatus)
    (pr : Option ℕ) (em : Option String) (stt : List (String × ℚ))
    (k1 : Option String) (k2 : Option (List String))
    (k3 : Option (Option String)) (k4 k5 : Option String) (k7 : Option ℚ) :
    (updateVideoStatus job st pr em stt k1 k2 k3 k4 k5 none k7).thumbnail_url =
      job.thumbnail_url := rfl

theorem updateVideoStatus_error_some (job : Job) (st : VideoStatus)
    (pr : Option ℕ) {e : String} (he : ¬ e = "") (stt : List (String × ℚ))
    (k1 : Option String) (k2 : Option (List String))
    (k3 : Option (Option String)) (k4 k5 k6 : Option String) (k7 : Option ℚ) :
    (updateVideoStatus job st pr (some e) stt k1 k2 k3 k4 k5 k6 k7).error_message =
      some e := by
  show (if e = "" then job.error_message else some e) = some e
  rw [if_neg he]

theorem updateVideoStatus_step_timings (job : Job) (st : VideoStatus)
    (pr : Option ℕ) (em : Option String) (stt : List (String × ℚ))
    (k1 : Option String) (k2 : Option (List String))
    (k3 : Option (Option String)) (k4 k5 k6 : Option String) (k7 : Option ℚ) :
    (updateVideoStatus job st pr em stt k1 k2 k3 k4 k5 k6 k7).step_timings =
      mergeTimings job.step_timings stt := rfl

theorem append_ne_empty {s : String} (h : s ≠ "") (t : String) : s ++ t ≠ "" := by
  intro hcon
  have h0 := congrArg String.length hcon
  rw [String.length_append] at h0
  have hs0 : s.length ≠ 0 := by
    intro hz
    apply h
    cases s with
    | mk data =>
      cases data with
      | nil => rfl
      | cons c cs => simp [String.length] at hz
  have he : ("" : String).length = 0 := rfl
  omega

theorem joinNL_cons_cons (a b : String) (r : List String) :
    joinNL (a :: b :: r) = a ++ "\n" ++ joinNL (b :: r) := rfl

theorem joinNL_decomp {m : String} :
    ∀ {l : List String}, m ∈ l → ∃ s t, joinNL l = s ++ m ++ t := by
  intro l
  induction l with
  | nil => intro h; cases h
  | cons a rest ih =>
    intro h
    rcases List.mem_cons.mp h with rfl | hmem
    · cases rest with
      | nil => exact ⟨"", "", by simp [joinNL]⟩
      | cons b r =>
        refine ⟨"", "\n" ++ joinNL (b :: r), ?_⟩
        rw [joinNL_cons_cons]
        simp [String.append_assoc]
    · cases rest with
      | nil => cases hmem
      | cons b r =>
        rcases ih hmem with ⟨s, t, hst⟩
        refine ⟨a ++ "\n" ++ s, t, ?_⟩
        rw [joinNL_cons_cons, hst]
        simp [String.append_assoc]

theorem generateAudioGo_ok_suffix (nm v : String)
    (rest : List (String × Except String String)) :
    ∀ (ps : List (String × Except String String)) (errors : List String),
      (∀ p ∈ ps, ∃ e, p.2 = Except.error e) →
      generateAudioGo (ps ++ (nm, Except.ok v) :: rest) errors =
        (Except.ok v, errors ++ ps.map (fun p => p.1 ++ ": " ++ errOf p.2)) := by
  intro ps
  induction ps with
  | nil => intro errors _; simp [generateAudioGo]
  | cons p t ih =>
    intro errors hfail
    obtain ⟨e, he⟩ := hfail p (List.mem_cons_self _ _)
    obtain ⟨n1, r1⟩ := p
    simp only at he
    subst he
    simp only [List.cons_append, generateAudioGo, List.append_eq]
    rw [ih _ (fun q hq => hfail q (List.mem_cons_of_mem _ hq))]
    simp [errOf, List.append_assoc]

theorem generateAudioGo_all_fail :
    ∀ (ps : List (String × Except String String)) (errors : List String),
      (∀ p ∈ ps, ∃ e, p.2 = Except.error e) →
      generateAudioGo ps errors =
        (Except.error ("All audio generation providers failed:\n" ++
          joinNL (errors ++ ps.map (fun p => p.1 ++ ": " ++ errOf p.2))),
         errors ++ ps.map (fun p => p.1 ++ ": " ++ errOf p.2)) := by
  intro ps
  induction ps with
  | nil => intro errors _; simp [generateAudioGo]
  | cons p t ih =>
    intro errors hfail
    obtain ⟨e, he⟩ := hfail p (List.mem_cons_self _ _)
    obtain ⟨n1, r1⟩ := p
    simp only at he
    subst he
    simp only [generateAudioGo, List.append_eq]
    rw [ih _ (fun q hq => hfail q (List.mem_cons_of_mem _ hq))]
    simp [errOf, List.append_assoc]

/-- C7: with an ordered provider list in which every provider before the last
  raises and the last succeeds, generate_audio returns the last provider
  result and records exactly one "name: reason" failure entry per failed
  provider, in order; each provider is invoked at most once (no retry). -/
theorem claim_C7_fallback_chain (ps : List (String × Except String String))
    (nm v : String)
    (hfail : ∀ p ∈ ps, ∃ e, p.2 = Except.error e) :
    generate_audio (ps ++ [(nm, Except.ok v)]) =
      (Except.ok v, ps.map (fun p => p.1 ++ ": " ++ errOf p.2)) := by
  have h := generateAudioGo_ok_suffix nm v [] ps [] hfail
  simpa [generate_audio] using h

theorem claim_C7_fallback_chain_witness :
    (∀ p ∈ ([("ElevenLabs", Except.error "e1"), ("Groq", Except.error "e2")] :
        List (String × Except String String)), ∃ e, p.2 = Except.error e) ∧
    generate_audio ([("ElevenLabs", Except.error "e1"),
        ("Groq", Except.error "e2")] ++ [("EdgeTTS", Except.ok "audio.wav")]) =
      (Except.ok "audio.wav",
       ([("ElevenLabs", Except.error "e1"), ("Groq", Except.error "e2")] :
        List (String × Except String String)).map
          (fun p => p.1 ++ ": " ++ errOf p.2)) := by
  have hfail : ∀ p ∈ ([("ElevenLabs", Except.error "e1"),
      ("Groq", Except.error "e2")] : List (String × Except String String)),
      ∃ e, p.2 = Except.error e := by
    intro p hp
    rcases List.mem_cons.mp hp with rfl | hp2
    · exact ⟨"e1", rfl⟩
    · rcases List.mem_cons.mp hp2 with rfl | hp3
      · exact ⟨"e2", rfl⟩
      · cases hp3
  exact ⟨hfail, claim_C7_fallback_chain _ "EdgeTTS" "audio.wav" hfail⟩

/-- C4: when the script and image stages succeed but every audio provider
  raises, the pipeline ends with the Job FAILED, the error message contains
  the name and failure reason of every audio provider, and neither video_url
  nor thumbnail_url is ever set. -/
theorem claim_C4_audio_all_providers_fail (ext : Ext) (job0 : Job) (s : String)
    (imgs : List ImageCandidate)
    (hscript : ext.script = Except.ok s)
    (himages : ext.images = Except.ok imgs)
    (hfail : ∀ p ∈ ext.audioProviders, ∃ e, p.2 = Except.error e)
    (hv : job0.video_url = none) (ht : job0.thumbnail_url = none) :
    (generate_video_background ext job0).status = VideoStatus.failed ∧
    (generate_video_background ext job0).video_url = none ∧
    (generate_video_background ext job0).thumbnail_url = none ∧
    ∀ p ∈ ext.audioProviders, ∃ s1 s2,
      (generate_video_background ext job0).error_message =
        some (s1 ++ (p.1 ++ ": " ++ errOf p.2) ++ s2) := by
  have hgo := generateAudioGo_all_fail ext.audioProviders [] hfail
  have haudio : (generate_audio ext.audioProviders).1 =
      Except.error ("All audio generation providers failed:\n" ++
        joinNL (ext.audioProviders.map (fun p => p.1 ++ ": " ++ errOf p.2))) := by
    rw [generate_audio, hgo]
    simp
  have hne : ¬ ("Audio generation failed: " ++
      ("All audio generation providers failed:\n" ++
        joinNL (ext.audioProviders.map (fun p => p.1 ++ ": " ++ errOf p.2)))) = "" :=
    append_ne_empty (by decide) _
  simp only [generate_video_background, hscript, himages, haudio]
  refine ⟨rfl, ?_, ?_, ?_⟩
  · simp only [updateVideoStatus_video_url]
    exact hv
  · simp only [updateVideoStatus_thumbnail_url]
    exact ht
  · intro p hp
    rcases joinNL_decomp (List.mem_map_of_mem
      (fun p => p.1 ++ ": " ++ errOf p.2) hp) with ⟨s1, s2, hjoin⟩
    refine ⟨("Audio generation failed: " ++
      "All audio generation providers failed:\n") ++ s1, s2, ?_⟩
    rw [updateVideoStatus_error_some _ _ _ hne, hjoin]
    simp only [String.append_assoc, Option.some.injEq]

/-- A run in which every audio provider fails (the remaining collaborator
  outcomes are irrelevant: the pipeline stops at the audio stage). -/
def extAllAudioFail : Ext :=
  { script := Except.ok "script text"
    images := Except.ok []
    audioProviders := [("ElevenLabs", Except.error "boom1"),
      ("Groq", Except.error "boom2"), ("EdgeTTS", Except.error "boom3")]
    audioUpload := Except.error "unused"
    subtitleUpload := Except.error "unused"
    modal := Except.error "unused"
    probe := none
    tScript := 1
    tImages := 1
    tAudio := 1
    tAudioUpload := 1
    tSubtitles := 1
    tSubUpload := 1
    tModal := 1
    errorAt := 1 }

theorem claim_C4_audio_all_providers_fail_witness :
    extAllAudioFail.script = Except.ok "script text" ∧
    extAllAudioFail.images = Except.ok ([] : List ImageCandidate) ∧
    (∀ p ∈ extAllAudioFail.audioProviders, ∃ e, p.2 = Except.error e) ∧
    freshJob.video_url = none ∧ freshJob.thumbnail_url = none ∧
    ((generate_video_background extAllAudioFail freshJob).status =
        VideoStatus.failed ∧
     (generate_video_background extAllAudioFail freshJob).video_url = none ∧
     (generate_video_background extAllAudioFail freshJob).thumbnail_url = none ∧
     ∀ p ∈ extAllAudioFail.audioProviders, ∃ s1 s2,
       (generate_video_background extAllAudioFail freshJob).error_message =
         some (s1 ++ (p.1 ++ ": " ++ errOf p.2) ++ s2)) := by
  have hfail : ∀ p ∈ extAllAudioFail.audioProviders, ∃ e, p.2 = Except.error e := by
    have hlist : extAllAudioFail.audioProviders =
        [("ElevenLabs", Except.error "boom1"), ("Groq", Except.error "boom2"),
         ("EdgeTTS", Except.error "boom3")] := rfl
    rw [hlist]
    intro p hp
    rcases List.mem_cons.mp hp with rfl | hp2
    · exact ⟨"boom1", rfl⟩
    · rcases List.mem_cons.mp hp2 with rfl | hp3
      · exact ⟨"boom2", rfl⟩
      · rcases List.mem_cons.mp hp3 with rfl | hp4
        · exact ⟨"boom3", rfl⟩
        · cases hp4
  exact ⟨rfl, rfl, hfail, rfl, rfl,
    claim_C4_audio_all_providers_fail extAllAudioFail freshJob "script text" []
      rfl rfl hfail rfl rfl⟩

set_option maxHeartbeats 4000000 in
/-- C5: for every Job run that completes successfully (script, images, audio,
  subtitle upload and the remote composition all succeed), the Job is
  persisted with Stage COMPLETED and progress 100, and step_timings receives
  a final total_processing_time entry equal to the sum of the other entries
  whose keys do not end with the suffix _failed. -/
theorem claim_C5_total_processing_time (ext : Ext) (job0 : Job) (s : String)
    (imgs : List ImageCandidate) (ap su vu tu : String)
    (hscript : ext.script = Except.ok s)
    (himages : ext.images = Except.ok imgs)
    (haudio : (generate_audio ext.audioProviders).1 = Except.ok ap)
    (hsub : ext.subtitleUpload = Except.ok su)
    (hmodal : ext.modal = Except.ok (vu, tu))
    (hst : job0.step_timings = []) :
    (generate_video_background ext job0).status = VideoStatus.completed ∧
    (generate_video_background ext job0).progress = 100 ∧
    ∃ prior T,
      (generate_video_background ext job0).step_timings =
        prior ++ [("total_processing_time", T)] ∧
      prior.all (fun kv => kv.1 != "total_processing_time") = true ∧
      T = ((prior.filter (fun kv => !(pyEndsWith kv.1 "_failed"))).map
            (fun kv => kv.2)).sum := by
  have hjob : job0 = { job0 with step_timings := ([] : List (String × ℚ)) } := by
    rw [← hst]
  rw [hjob]
  cases hau : ext.audioUpload with
  | ok au =>
    simp only [generate_video_background, hscript, himages, haudio, hau, hsub,
      hmodal]
    refine ⟨rfl, rfl,
      ([("script_generation", ext.tScript), ("image_fetching", ext.tImages),
        ("audio_upload", ext.tAudioUpload), ("audio_generation", ext.tAudio),
        ("subtitle_upload", ext.tSubUpload),
        ("subtitle_generation", ext.tSubtitles),
        ("video_composition_modal", ext.tModal)] : List (String × ℚ)),
      ((([("script_generation", ext.tScript), ("image_fetching", ext.tImages),
          ("audio_upload", ext.tAudioUpload), ("audio_generation", ext.tAudio),
          ("subtitle_upload", ext.tSubUpload),
          ("subtitle_generation", ext.tSubtitles),
          ("video_composition_modal", ext.tModal)] :
            List (String × ℚ)).filter
           (fun kv => !(pyEndsWith kv.1 "_failed"))).map
        (fun kv => kv.2)).sum,
      ?_, rfl, rfl⟩
    simp only [updateVideoStatus_step_timings]
    rfl
  | error ae =>
    simp only [generate_video_background, hscript, himages, haudio, hau, hsub,
      hmodal]
    refine ⟨rfl, rfl,
      ([("script_generation", ext.tScript), ("image_fetching", ext.tImages),
        ("audio_upload_failed", ext.tAudioUpload),
        ("audio_generation", ext.tAudio),
        ("subtitle_upload", ext.tSubUpload),
        ("subtitle_generation", ext.tSubtitles),
        ("video_composition_modal", ext.tModal)] : List (String × ℚ)),
      ((([("script_generation", ext.tScript), ("image_fetching", ext.tImages),
          ("audio_upload_failed", ext.tAudioUpload),
          ("audio_generation", ext.tAudio),
          ("subtitle_upload", ext.tSubUpload),
          ("subtitle_generation", ext.tSubtitles),
          ("video_composition_modal", ext.tModal)] :
            List (String × ℚ)).filter
           (fun kv => !(pyEndsWith kv.1 "_failed"))).map
        (fun kv => kv.2)).sum,
      ?_, rfl, rfl⟩
    simp only [updateVideoStatus_step_timings]
    rfl

/-- A fully successful run used to witness C5. -/
def extSuccess : Ext :=
  { script := Except.ok "s"
    images := Except.ok []
    audioProviders := [("ElevenLabs", Except.ok "audio.wav")]
    audioUpload := Except.ok "http://audio"
    subtitleUpload := Except.ok "http://subs"
    modal := Except.ok ("http://video", "http://thumb")
    probe := some 12
    tScript := 1
    tImages := 2
    tAudio := 3
    tAudioUpload := 4
    tSubtitles := 5
    tSubUpload := 6
    tModal := 7
    errorAt := 0 }

theorem claim_C5_total_processing_time_witness :
    extSuccess.script = Except.ok "s" ∧
    extSuccess.images = Except.ok ([] : List ImageCandidate) ∧
    (generate_audio extSuccess.audioProviders).1 = Except.ok "audio.wav" ∧
    extSuccess.subtitleUpload = Except.ok "http://subs" ∧
    extSuccess.modal = Except.ok ("http://video", "http://thumb") ∧
    freshJob.step_timings = [] ∧
    ((generate_video_background extSuccess freshJob).status =
        VideoStatus.completed ∧
     (generate_video_background extSuccess freshJob).progress = 100 ∧
     ∃ prior T,
       (generate_video_background extSuccess freshJob).step_timings =
         prior ++ [("total_processing_time", T)] ∧
       prior.all (fun kv => kv.1 != "total_processing_time") = true ∧
       T = ((prior.filter (fun kv => !(pyEndsWith kv.1 "_failed"))).map
             (fun kv => kv.2)).sum) :=
  ⟨rfl, rfl, rfl, rfl, rfl, rfl,
   claim_C5_total_processing_time extSuccess freshJob "s" [] "audio.wav"
     "http://subs" "http://video" "http://thumb" rfl rfl rfl rfl rfl rfl⟩

/-- A run in which only the subtitle upload fails. -/
def extSubtitleUploadFail : Ext :=
  { script := Except.ok "s"
    images := Except.ok []
    audioProviders := [("ElevenLabs", Except.ok "audio.wav")]
    audioUpload := Except.ok "http://audio"
    subtitleUpload := Except.error "boom"
    modal := Except.ok ("http://video", "http://thumb")
    probe := some 12
    tScript := 1
    tImages := 1
    tAudio := 1
    tAudioUpload := 1
    tSubtitles := 1
    tSubUpload := 1
    tModal := 1
    errorAt := 1 }

/-- A run in which only the audio upload fails. -/
def extAudioUploadFail : Ext :=
  { extSubtitleUploadFail with
    audioUpload := Except.error "boom"
    subtitleUpload := Except.ok "http://subs" }

/-- C6: an audio upload failure is non-fatal — the pipeline records an
  audio_upload_failed timing, continues without the audio URL and still
  completes — but a subtitle upload failure crashes the run through the
  unbound local subtitle_url (NameError caught by the outer handler), ending
  the Job FAILED instead of continuing, contrary to the claim. -/
theorem claim_C6_intermediate_upload_failures :
    ((generate_video_background extAudioUploadFail freshJob).status =
        VideoStatus.completed ∧
     ("audio_upload_failed", 1) ∈
       (generate_video_background extAudioUploadFail freshJob).step_timings ∧
     (generate_video_background extAudioUploadFail freshJob).audio_url = none) ∧
    ((generate_video_background extSubtitleUploadFail freshJob).status =
        VideoStatus.failed ∧
     ("subtitle_upload_failed", 1) ∈
       (generate_video_background extSubtitleUploadFail freshJob).step_timings ∧
     ("error_occurred_at", 1) ∈
       (generate_video_background extSubtitleUploadFail freshJob).step_timings ∧
     (generate_video_background extSubtitleUploadFail freshJob).video_url =
       none) := by
  decide

end Vidgenai
